import Mathlib

/-
  Formal verification of the analytical core of the wekeza trading system.

  The definitions below are shallow embeddings of the Python source under
  src/python_backend: machine floats are modelled as exact rationals, Python
  dictionaries keyed by a symbol as association lists, and code paths that
  raise exceptions as Option/Except values.  Each definition names the source
  function it embeds.
-/

/-! ## Generic helpers -/

/-- Python int() conversion: truncation toward zero. -/
def pyTrunc (q : ℚ) : ℤ := if q < 0 then -⌊-q⌋ else ⌊q⌋

/-- Substring test helper: does the pattern occur at the head of the list. -/
def listSegAt : List Char → List Char → Bool
  | [], _ => true
  | _ :: _, [] => false
  | p :: ps, c :: cs => p == c && listSegAt ps cs

/-- Substring test helper: does the pattern occur anywhere in the list. -/
def listHasSeg (pat : List Char) : List Char → Bool
  | [] => pat.isEmpty
  | c :: cs => listSegAt pat (c :: cs) || listHasSeg pat cs

/-- Python membership test on strings: pat in s (substring containment). -/
def pyInStr (pat s : String) : Bool := listHasSeg pat.data s.data

/-! ## Portfolio manager: signal aggregation
    (src/python_backend/agents/portfolio_manager.py, aggregate_signals) -/

/-- The values extracted from the three agent signal dictionaries at the top of
aggregate_signals (lines 141-149): tape reader direction/confidence, chartist
direction/strength, macro direction/confidence and the trading_allowed flag. -/
structure AggInputs where
  trDirection : String
  trConfidence : ℚ
  chDirection : String
  chStrength : ℚ
  macroDirection : String
  macroConfidence : ℚ
  tradingAllowed : Bool
deriving DecidableEq

/-- signal_map dictionary lookup with default 0 (lines 161-165, 168-170). -/
def signalMap (d : String) : ℚ :=
  if d = "bullish" then 1
  else if d = "bullish_breakout" then 6/5
  else if d = "bearish" then -1
  else if d = "bearish_breakout" then -6/5
  else 0

/-- tr_value: tape reader contribution, weight 0.40 (line 168). -/
def trValue (i : AggInputs) : ℚ := signalMap i.trDirection * i.trConfidence * (2/5)

/-- ch_value: chartist contribution, weight 0.35 (line 169). -/
def chValue (i : AggInputs) : ℚ := signalMap i.chDirection * i.chStrength * (7/20)

/-- macro_value: macro contribution, weight 0.25 (line 170). -/
def macroValue (i : AggInputs) : ℚ := signalMap i.macroDirection * i.macroConfidence * (1/4)

/-- total_signal before the agreement bonus (line 172). -/
def totalSignalBase (i : AggInputs) : ℚ := trValue i + chValue i + macroValue i

/-- The signals list of (direction, confidence) pairs (lines 175-179). -/
def signalsList (i : AggInputs) : List (String × ℚ) :=
  [(i.trDirection, i.trConfidence), (i.chDirection, i.chStrength),
   (i.macroDirection, i.macroConfidence)]

/-- bullish_count (line 181): sources whose direction contains the substring
bullish with confidence strictly above 0.5. -/
def bullishCount (i : AggInputs) : ℕ :=
  (signalsList i).countP fun p => pyInStr ("bullish") p.1 && decide ((1:ℚ)/2 < p.2)

/-- bearish_count (line 182). -/
def bearishCount (i : AggInputs) : ℕ :=
  (signalsList i).countP fun p => pyInStr ("bearish") p.1 && decide ((1:ℚ)/2 < p.2)

/-- total_signal after the strong-agreement bonus (lines 185-188). -/
def totalSignal (i : AggInputs) : ℚ :=
  if 2 ≤ bullishCount i then totalSignalBase i + 1/5
  else if 2 ≤ bearishCount i then totalSignalBase i - 1/5
  else totalSignalBase i

/-- avg_confidence (line 191). -/
def avgConfidence (i : AggInputs) : ℚ :=
  (i.trConfidence + i.chStrength + i.macroConfidence) / 3

/-- The record returned by aggregate_signals.  The two return sites of the
source build dictionaries with different key sets, so keys absent from a
branch are modelled as none (the decorative agreement string and the nested
agent_signals echo of the inputs are omitted). -/
structure AggDecision where
  finalDecision : String
  reason : Option String
  confidence : ℚ
  positionSize : Option ℚ
  direction : Option String
  signalStrength : Option ℚ
deriving DecidableEq

/-- PortfolioManagerAgent.aggregate_signals (lines 111-220), with the default
config (min_confidence 0.6). -/
def aggregateSignals (i : AggInputs) : AggDecision :=
  if i.tradingAllowed = false then
    { finalDecision := "no_trade",
      reason := some ("Volatility filter active - near high-impact event"),
      confidence := 0, positionSize := some 0,
      direction := none, signalStrength := none }
  else
    let ts := totalSignal i
    let avg := avgConfidence i
    if |ts| < 3/10 ∨ avg < 3/5 then
      { finalDecision := "no_trade", reason := none, confidence := avg,
        positionSize := none, direction := some ("neutral"),
        signalStrength := some |ts| }
    else if 0 < ts then
      { finalDecision := "long", reason := none,
        confidence := min (19/20) (avg + ((bullishCount i : ℚ) - 1) * (1/10)),
        positionSize := none, direction := some ("bullish"),
        signalStrength := some |ts| }
    else
      { finalDecision := "short", reason := none,
        confidence := min (19/20) (avg + ((bearishCount i : ℚ) - 1) * (1/10)),
        positionSize := none, direction := some ("bearish"),
        signalStrength := some |ts| }

/-! ## Portfolio manager: position sizing and Kelly sizing -/

/-- The record returned by calculate_position_size (lines 272-280). -/
structure PositionSize where
  symbol : String
  units : ℤ
  positionValue : ℚ
  positionPct : ℚ
  riskAmount : ℚ
  stopLoss : ℚ
  stopDistancePct : ℚ
deriving DecidableEq

/-- PortfolioManagerAgent.calculate_position_size (lines 229-280) with the
default config (risk_per_trade 0.02, max_position_size 0.10).  The portfolio
equity is passed explicitly. -/
def calculatePositionSize (equity : ℚ) (symbol : String)
    (entryPrice stopLoss confidence : ℚ) : PositionSize :=
  let riskAmount := equity * (1/50) * confidence
  let stopDistance0 := |entryPrice - stopLoss|
  let stopDistance := if stopDistance0 = 0 then entryPrice * (1/100) else stopDistance0
  let units0 := riskAmount / stopDistance
  let positionValue0 := units0 * entryPrice
  let positionPct0 := positionValue0 / equity
  if 1/10 < positionPct0 then
    { symbol := symbol, units := pyTrunc (equity * (1/10) / entryPrice),
      positionValue := equity * (1/10), positionPct := 1/10,
      riskAmount := riskAmount, stopLoss := stopLoss,
      stopDistancePct := stopDistance / entryPrice * 100 }
  else
    { symbol := symbol, units := pyTrunc units0,
      positionValue := positionValue0, positionPct := positionPct0,
      riskAmount := riskAmount, stopLoss := stopLoss,
      stopDistancePct := stopDistance / entryPrice * 100 }

/-- PortfolioManagerAgent.calculate_kelly_size (lines 222-227) with the default
config (kelly_fraction 0.25, max_position_size 0.10).  The Python body computes
r = avg_win / avg_loss and then divides by r; when r = 0 that second division
raises ZeroDivisionError, modelled as none. -/
def calculateKellySize (winRate avgWin avgLoss : ℚ) : Option ℚ :=
  if avgLoss = 0 ∨ ¬(0 < winRate ∧ winRate < 1) then some 0
  else
    let r := avgWin / avgLoss
    if r = 0 then none
    else
      let kelly := winRate - (1 - winRate) / r
      some (min (max 0 (kelly * (1/4))) (1/10))

/-! ## OHLCV bars -/

/-- One OHLCV bar.  The Python field named open is spelled openPrice because
open is a Lean keyword.  Timestamps are not carried: none of the verified code
paths reads them. -/
structure Bar where
  openPrice : ℚ
  high : ℚ
  low : ℚ
  close : ℚ
  volume : ℚ
deriving DecidableEq

/-- Placeholder bar used as the default of getD lookups that the verified
code paths never reach out of range. -/
def barDefault : Bar := ⟨0, 0, 0, 0, 0⟩

/-! ## Volume profile (src/python_backend/data/volume_profile.py) -/

/-- price_min = bars.low.min() (line 57). -/
def priceMinOf : List Bar → ℚ
  | [] => 0
  | b :: bs => (bs.map Bar.low).foldl min b.low

/-- price_max = bars.high.max() (line 58). -/
def priceMaxOf : List Bar → ℚ
  | [] => 0
  | b :: bs => (bs.map Bar.high).foldl max b.high

/-- price_range before the degenerate-range adjustment (line 59). -/
def rawRange (bars : List Bar) : ℚ := priceMaxOf bars - priceMinOf bars

/-- price_range after the zero-range adjustment to 1 percent of price_min
(lines 61-62). -/
def priceRange (bars : List Bar) : ℚ :=
  if rawRange bars = 0 then priceMinOf bars * (1/100) else rawRange bars

/-- bin_size = price_range / bins with the default bins = 100 (line 65). -/
def binSize (bars : List Bar) : ℚ := priceRange bars / 100

/-- np.clip(..., 0, bins - 1) on a bin index (lines 74-75). -/
def clipBin (x : ℤ) : ℕ := if x < 0 then 0 else if (99:ℤ) < x then 99 else x.toNat

/-- start_bins entry of a bar (line 74).  numpy astype(int) truncates toward
zero; the operand (low - price_min) / bin_size is nonnegative whenever the
bar data satisfies the Bar invariant, where truncation agrees with the floor
used here. -/
def startBin (bars : List Bar) (b : Bar) : ℕ :=
  clipBin ⌊(b.low - priceMinOf bars) / binSize bars⌋

/-- end_bins entry of a bar (line 75). -/
def endBin (bars : List Bar) (b : Bar) : ℕ :=
  clipBin ⌊(b.high - priceMinOf bars) / binSize bars⌋

/-- bins_touched = e - s + 1 (line 86). -/
def touchedBins (bars : List Bar) (b : Bar) : ℕ :=
  endBin bars b - startBin bars b + 1

/-- The amount the accumulation loop (lines 85-87) adds to bucket i on behalf
of bar b: v / bins_touched if i lies in the slice [s, e], otherwise 0. -/
def barContrib (bars : List Bar) (i : ℕ) (b : Bar) : ℚ :=
  if startBin bars b ≤ i ∧ i ≤ endBin bars b
  then b.volume / (touchedBins bars b : ℚ) else 0

/-- volume_profile after the accumulation loop over all bars (lines 77-87):
bucket i holds the sum of the per-bar slice contributions. -/
def profileVolumes (bars : List Bar) : List ℚ :=
  (List.range 100).map fun i => (bars.map (barContrib bars i)).sum

/-- np.argmax helper: index of the first maximal element so far. -/
def argmaxAux : List ℚ → ℕ → ℕ → ℚ → ℕ
  | [], _, best, _ => best
  | x :: xs, i, best, bv =>
    if bv < x then argmaxAux xs (i + 1) i x else argmaxAux xs (i + 1) best bv

/-- np.argmax: index of the first maximal element (0 on the empty list). -/
def argmaxIdx : List ℚ → ℕ
  | [] => 0
  | x :: xs => argmaxAux xs 1 0 x

/-- The while loop of calculate_value_area (lines 164-177), with explicit
fuel.  Each iteration either moves one boundary outward or returns, so fuel
equal to the profile length is enough for the loop to run to its Python
outcome: at most length - 1 expansions can happen before both guards fail. -/
def expandValueArea (profile : List ℚ) (target : ℚ) :
    ℕ → ℚ → ℕ → ℕ → ℕ × ℕ
  | 0, _, lo, hi => (lo, hi)
  | fuel + 1, cur, lo, hi =>
    if cur < target then
      let volAbove := if hi + 1 < profile.length then profile.getD (hi + 1) 0 else 0
      let volBelow := if 1 ≤ lo then profile.getD (lo - 1) 0 else 0
      if volBelow ≤ volAbove ∧ hi + 1 < profile.length then
        expandValueArea profile target fuel (cur + volAbove) lo (hi + 1)
      else if 1 ≤ lo then
        expandValueArea profile target fuel (cur + volBelow) (lo - 1) hi
      else (lo, hi)
    else (lo, hi)

/-- calculate_value_area (lines 132-182): returns (vah, val), expanding
outward from the POC bin until the accumulated volume reaches
value_area_pct of the total. -/
def calculateValueArea (profile : List ℚ) (priceBins : ℕ → ℚ)
    (binSizeQ : ℚ) (valueAreaPct : ℚ) : ℚ × ℚ :=
  let targetVolume := profile.sum * valueAreaPct
  let pocBin := argmaxIdx profile
  let bounds := expandValueArea profile targetVolume profile.length
    (profile.getD pocBin 0) pocBin pocBin
  (priceBins bounds.2 + binSizeQ, priceBins bounds.1)

/-- price_bins = np.linspace(price_min, price_max, bins + 1) (line 66):
the i-th edge is price_min + i * (price_max - price_min) / bins. -/
def priceBinsFn (bars : List Bar) (i : ℕ) : ℚ :=
  priceMinOf bars + i * rawRange bars / 100

/-- The VolumeProfileResult fields used by the verified claims (poc, vah,
val, the bucket volumes of the profile mapping, and current_position).  The
hvn/lvn/regime fields are independent of these claims and are omitted. -/
structure VolumeProfileResult where
  poc : ℚ
  vah : ℚ
  val : ℚ
  profile : List ℚ
  currentPosition : String
deriving DecidableEq

/-- build_volume_profile (lines 33-129) with the default bins = 100 and
value_area_pct = 0.70. -/
def buildVolumeProfile (bars : List Bar) : VolumeProfileResult :=
  if bars.isEmpty then
    { poc := 0, vah := 0, val := 0, profile := [], currentPosition := "in_value" }
  else
    let profile := profileVolumes bars
    let pocBin := argmaxIdx profile
    let poc := priceBinsFn bars pocBin + binSize bars / 2
    let va := calculateValueArea profile (priceBinsFn bars) (binSize bars) (7/10)
    let currentPrice := (bars.map Bar.close).getLastD 0
    { poc := poc, vah := va.1, val := va.2, profile := profile,
      currentPosition :=
        if va.1 < currentPrice then "above_vah"
        else if currentPrice < va.2 then "below_val" else "in_value" }

/-- Concrete two-bar window used by the volume profile witnesses. -/
def vpDemoBars : List Bar := [⟨10, 12, 10, 11, 100⟩, ⟨12, 15, 11, 12, 50⟩]

/-! ## Order flow (src/python_backend/data/order_flow.py) -/

/-- estimated_delta of one bar (lines 108-116): body / range * volume, with a
zero range replaced by 1. -/
def estimatedDelta (b : Bar) : ℚ :=
  let range := b.high - b.low
  (b.close - b.openPrice) / (if range = 0 then 1 else range) * b.volume

/-- The estimated_delta column of estimate_delta_from_ohlcv. -/
def deltas (bars : List Bar) : List ℚ := bars.map estimatedDelta

/-- Running sum (pandas cumsum). -/
def cumsum (a : ℚ) : List ℚ → List ℚ
  | [] => []
  | x :: xs => (a + x) :: cumsum (a + x) xs

/-- The cumulative_delta column (line 119). -/
def cumDeltas (bars : List Bar) : List ℚ := cumsum 0 (deltas bars)

/-- Arithmetic mean of a list (0 on the empty list, where ℚ division by the
zero length yields 0). -/
def meanQ (l : List ℚ) : ℚ := l.sum / l.length

/-- Sample variance with ddof = 1, the square of the pandas std at line 122.
Well defined for lists of length at least 2, the only lengths on which the
verified theorems use it. -/
def sampleVar (l : List ℚ) : ℚ :=
  ((l.map fun x => (x - meanQ l)^2).sum) / ((l.length : ℚ) - 1)

/-- The delta_strength label of the latest bar (lines 123-127 and 426).
pd.cut with bins [0, 0.5 std, 1.5 std, inf] and right-closed intervals labels
a magnitude in (0, 0.5 std] weak, in (0.5 std, 1.5 std] moderate and above
strong; the value 0 falls outside the left-open first interval, becomes NaN,
and line 426 replaces NaN by moderate.  Comparisons with the std are
expressed through squares against the variance, which is exact for
rationals and avoids the irrational square root. -/
def deltaStrengthStr (d varQ : ℚ) : String :=
  if d = 0 then "moderate"
  else if d^2 ≤ varQ / 4 then "weak"
  else if d^2 ≤ 9 * varQ / 4 then "moderate"
  else "strong"

/-- OrderFlowSignal dataclass (lines 27-37).  The decorative description and
the always-zero timestamp are omitted; enum values are carried as the strings
they serialize to. -/
structure OrderFlowSignal where
  signalType : String
  pattern : String
  confidence : ℚ
  delta : ℚ
  cumulativeDelta : ℚ
deriving DecidableEq

/-- analyze_effort_vs_result (lines 132-213). -/
def analyzeEffortVsResult (delta : ℚ) (candleType deltaStrength : String) :
    OrderFlowSignal :=
  if delta < 0 ∧ candleType = "bullish" ∧ deltaStrength = "strong" then
    ⟨"bullish", "absorption", 17/20, delta, 0⟩
  else if 0 < delta ∧ candleType = "bearish" ∧ deltaStrength = "strong" then
    ⟨"bearish", "absorption", 17/20, delta, 0⟩
  else if 0 < delta ∧ candleType = "bullish" then
    ⟨"bullish", "continuation", 13/20, delta, 0⟩
  else if delta < 0 ∧ candleType = "bearish" then
    ⟨"bearish", "continuation", 13/20, delta, 0⟩
  else ⟨"neutral", "continuation", 3/10, delta, 0⟩

/-- pandas Series.tail(n): the last n elements. -/
def lastN (n : ℕ) (l : List ℚ) : List ℚ := l.drop (l.length - n)

/-- iloc[0] of a series, with default 0 (the verified code paths only read it
on nonempty series). -/
def headQ : List ℚ → ℚ
  | [] => 0
  | x :: _ => x

/-- iloc[-1] of a series, with default 0. -/
def lastQ : List ℚ → ℚ
  | [] => 0
  | [x] => x
  | _ :: y :: rest => lastQ (y :: rest)

/-- The 1e-10 guard added to the divergence denominator (lines 247 and 261). -/
def epsSmall : ℚ := 1 / 10000000000

/-- delta_trend and price_trend over the trailing lookback window (lines
242-243): last minus first of tail(lookback). -/
def trendOf (l : List ℚ) (lookback : ℕ) : ℚ :=
  lastQ (lastN lookback l) - headQ (lastN lookback l)

/-- detect_delta_exhaustion (lines 216-273). -/
def detectDeltaExhaustion (cumulativeDelta price : List ℚ)
    (lookback : ℕ) : Option OrderFlowSignal :=
  if cumulativeDelta.length < lookback then none
  else
    let deltaTrend := trendOf cumulativeDelta lookback
    let priceTrend := trendOf price lookback
    if 0 < priceTrend ∧ deltaTrend < 0 then
      let ds := |deltaTrend| / (|priceTrend| + epsSmall)
      if 1/2 < ds then
        some ⟨"bearish", "exhaustion", min (9/10) (1/2 + ds * (2/5)),
          lastQ (lastN lookback cumulativeDelta), lastQ cumulativeDelta⟩
      else none
    else if priceTrend < 0 ∧ 0 < deltaTrend then
      let ds := |deltaTrend| / (|priceTrend| + epsSmall)
      if 1/2 < ds then
        some ⟨"bullish", "exhaustion", min (9/10) (1/2 + ds * (2/5)),
          lastQ (lastN lookback cumulativeDelta), lastQ cumulativeDelta⟩
      else none
    else none

/-- The dictionary returned by analyze_orderflow (lines 443-462), restricted
to the scalar fields the claims mention (the delta history echo lists are
omitted). -/
structure OrderFlowAnalysis where
  currentDelta : ℚ
  cumulativeDelta : ℚ
  deltaStrength : String
  candleType : String
  signal : OrderFlowSignal
  exhaustion : Option OrderFlowSignal
deriving DecidableEq

/-- analyze_orderflow (lines 410-462).  The function has no guard for small
windows: on an empty frame bars.iloc[-1] raises IndexError, and on a
one-element frame the pandas std is NaN so the pd.cut bin edges
[0, NaN, NaN, inf] make the IntervalIndex construction raise; both are
modelled as none.  When the estimated deltas all coincide the std is 0, the
pd.cut bin edges [0, 0, 0, inf] are duplicated, and pd.cut raises
ValueError (duplicates = raise), also modelled as none. -/
def analyzeOrderflow (bars : List Bar) : Option OrderFlowAnalysis :=
  if bars.length < 2 then none
  else
    let ds := deltas bars
    let varQ := sampleVar ds
    if varQ = 0 then none
    else
      let latest := bars.getLastD barDefault
      let latestDelta := ds.getLastD 0
      let candleType := if latest.openPrice < latest.close then "bullish" else "bearish"
      let strength := deltaStrengthStr latestDelta varQ
      let cum := cumDeltas bars
      let sig0 := analyzeEffortVsResult latestDelta candleType strength
      let sig := { sig0 with cumulativeDelta := cum.getLastD 0 }
      let exh := detectDeltaExhaustion cum (bars.map Bar.close) 10
      some { currentDelta := latestDelta, cumulativeDelta := cum.getLastD 0,
             deltaStrength := strength, candleType := candleType,
             signal := sig, exhaustion := exh }

/-- Concrete three-bar window with distinct estimated deltas, used by the
order flow witness. -/
def ofDemoBars : List Bar :=
  [⟨100, 102, 98, 102, 4⟩, ⟨100, 101, 99, 99, 2⟩, ⟨100, 100, 100, 100, 5⟩]

/-- Concrete strictly decreasing cumulative delta series for C7. -/
def c7Delta : List ℚ := [10, 9, 8, 7, 6, 5, 4, 3, 2, 1]

/-- Concrete strictly increasing close series for C7 whose rise exceeds twice
the delta decline. -/
def c7Price : List ℚ := [100, 103, 106, 109, 112, 115, 118, 121, 124, 127]

/-! ## Backtesting engine (src/python_backend/backtesting/engine.py) -/

/-- Association list lookup, the model of a Python dict read keyed by a
symbol. -/
def alookup {α : Type} (k : String) : List (String × α) → Option α
  | [] => none
  | p :: rest => if p.1 = k then some p.2 else alookup k rest

/-- Association list removal, the model of del dict[key].  Python dict keys
are unique, so removing every binding of the key is equivalent. -/
def aerase {α : Type} (k : String) : List (String × α) → List (String × α)
  | [] => []
  | p :: rest => if p.1 = k then aerase k rest else p :: aerase k rest

/-- BacktestEngine constructor parameters (lines 79-89). -/
structure EngineConfig where
  initialCapital : ℚ
  commission : ℚ
  slippage : ℚ
  riskPerTrade : ℚ
deriving DecidableEq

/-- The Trade dataclass (lines 17-31).  entry_time and exit_time hold
datetime.now() wall-clock readings; they are modelled as the integer clock
value passed to the run. -/
structure Trade where
  symbol : String
  entryTime : ℤ
  entryPrice : ℚ
  direction : String
  units : ℤ
  stopLoss : ℚ
  takeProfit : Option ℚ
  exitTime : Option ℤ
  exitPrice : Option ℚ
  pnl : ℚ
  pnlPct : ℚ
  exitReason : String
deriving DecidableEq

/-- The dictionary a strategy function returns: action plus optional stop
loss and take profit levels. -/
structure StrategySignal where
  action : String
  stopLoss : Option ℚ
  takeProfit : Option ℚ
deriving DecidableEq

/-- The mutable run state of BacktestEngine (lines 91-95): capital, equity
history, closed trades and open positions. -/
structure EngineState where
  capital : ℚ
  equityHistory : List ℚ
  trades : List Trade
  openPositions : List (String × Trade)
deriving DecidableEq

/-- reset (lines 97-102). -/
def initEngineState (cfg : EngineConfig) : EngineState :=
  ⟨cfg.initialCapital, [cfg.initialCapital], [], []⟩

/-- BacktestEngine._close_position (lines 251-281).  now models the
datetime.now() read for exit_time. -/
def closePosition (cfg : EngineConfig) (now : ℤ) (symbol : String)
    (exitLevel : ℚ) (reason : String) (s : EngineState) : EngineState :=
  match alookup symbol s.openPositions with
  | none => s
  | some t =>
    let exitPrice := if t.direction = "long" then exitLevel * (1 - cfg.slippage)
      else exitLevel * (1 + cfg.slippage)
    let gross := if t.direction = "long"
      then (exitPrice - t.entryPrice) * (t.units : ℚ)
      else (t.entryPrice - exitPrice) * (t.units : ℚ)
    let pnl := gross - exitPrice * (t.units : ℚ) * cfg.commission
    let tClosed := { t with
                     exitTime := some now,
                     exitPrice := some exitPrice,
                     pnl := pnl,
                     pnlPct := pnl / (t.entryPrice * (t.units : ℚ)) * 100,
                     exitReason := reason }
    { s with capital := s.capital + pnl,
             trades := s.trades ++ [tClosed],
             openPositions := aerase symbol s.openPositions }

/-- BacktestEngine._check_stops (lines 227-249).  The take-profit block
reuses the trade object read before the stop check; when the stop already
closed the position the inner close finds no open position and is a no-op,
exactly as in the source.  The Python guard if trade.take_profit: is falsy
both for None and for a take profit level of 0.0. -/
def checkStops (cfg : EngineConfig) (now : ℤ) (symbol : String) (bar : Bar)
    (s : EngineState) : EngineState :=
  match alookup symbol s.openPositions with
  | none => s
  | some t =>
    let s1 :=
      if t.direction = "long" then
        if bar.low ≤ t.stopLoss
        then closePosition cfg now symbol t.stopLoss ("stop_loss") s else s
      else
        if t.stopLoss ≤ bar.high
        then closePosition cfg now symbol t.stopLoss ("stop_loss") s else s
    match t.takeProfit with
    | none => s1
    | some tp =>
      if tp = 0 then s1
      else if t.direction = "long" then
        if tp ≤ bar.high
        then closePosition cfg now symbol tp ("take_profit") s1 else s1
      else
        if bar.low ≤ tp
        then closePosition cfg now symbol tp ("take_profit") s1 else s1

/-- BacktestEngine._execute_signal (lines 175-225).  now models the
datetime.now() read for entry_time. -/
def executeSignal (cfg : EngineConfig) (now : ℤ) (symbol : String)
    (signal : StrategySignal) (bar : Bar) (s : EngineState) : EngineState :=
  if (alookup symbol s.openPositions).isSome then s
  else
    let entryPrice := if signal.action = "BUY" then bar.close * (1 + cfg.slippage)
      else bar.close * (1 - cfg.slippage)
    let direction := if signal.action = "BUY" then "long" else "short"
    let stopLoss := signal.stopLoss.getD
      (entryPrice * (if signal.action = "BUY" then 49/50 else 51/50))
    let stopDistance := |entryPrice - stopLoss|
    let riskAmount := s.capital * cfg.riskPerTrade
    let units0 := if 0 < stopDistance then pyTrunc (riskAmount / stopDistance)
      else pyTrunc (s.capital * (1/10) / entryPrice)
    let positionValue := (units0 : ℚ) * entryPrice * (1 + cfg.commission)
    let units := if s.capital * (9/10) < positionValue
      then pyTrunc (s.capital * (9/10) / (entryPrice * (1 + cfg.commission)))
      else units0
    if units ≤ 0 then s
    else
      { s with
        capital := s.capital - (units : ℚ) * entryPrice * cfg.commission,
        openPositions := (symbol,
          ⟨symbol, now, entryPrice, direction, units, stopLoss,
            signal.takeProfit, none, none, 0, 0, ""⟩) :: s.openPositions }

/-- BacktestEngine._update_equity (lines 283-294): append capital plus the
marked-to-market unrealized profit of the open positions. -/
def updateEquity (currentPrice : ℚ) (s : EngineState) : EngineState :=
  let unrealized := (s.openPositions.map fun p =>
    if p.2.direction = "long"
    then (currentPrice - p.2.entryPrice) * (p.2.units : ℚ)
    else (p.2.entryPrice - currentPrice) * (p.2.units : ℚ)).sum
  { s with equityHistory := s.equityHistory ++ [s.capital + unrealized] }

/-- One iteration of the run_backtest loop body (lines 142-161): check stops
against the current bar, ask the strategy for a signal on the trailing
window, execute a BUY or SELL signal, update the equity curve. -/
def barStep (cfg : EngineConfig) (now : ℤ) (symbol : String)
    (strat : List Bar → StrategySignal) (window : List Bar) (bar : Bar)
    (s : EngineState) : EngineState :=
  let s1 := checkStops cfg now symbol bar s
  let signal := strat window
  let s2 := if signal.action = "BUY" ∨ signal.action = "SELL"
    then executeSignal cfg now symbol signal bar s1 else s1
  updateEquity bar.close s2

/-- The trailing n bars of a list. -/
def lastBars (n : ℕ) (l : List Bar) : List Bar := l.drop (l.length - n)

/-- The run_backtest loop in streaming form: past holds the bars already
seen (initially the first window_size bars), future the bars still to be
replayed.  At index i the source takes window = data[i-60:i] and the current
bar data[i]; here the window is the trailing 60 bars of past and the current
bar the head of future, which coincide. -/
def runLoop (cfg : EngineConfig) (now : ℤ) (symbol : String)
    (strat : List Bar → StrategySignal) :
    List Bar → List Bar → EngineState → EngineState
  | _, [], s => s
  | past, bar :: future, s =>
    runLoop cfg now symbol strat (past ++ [bar]) future
      (barStep cfg now symbol strat (lastBars 60 past) bar s)

/-- BacktestEngine.run_backtest (lines 104-173) restricted to the state the
verified claims read (capital, equity curve, trade list, open positions);
the derived summary statistics of _calculate_results are pure functions of
these.  No date filter arguments are passed (both default to None in the
claims).  Fewer than 100 bars raises ValueError, modelled as Except.error.
Strategy functions are modelled as pure Lean functions, so the
exception-to-NO_TRADE fallback around strategy_func is not reachable. -/
def runBacktest (cfg : EngineConfig) (now : ℤ) (symbol : String)
    (data : List Bar) (strat : List Bar → StrategySignal) :
    Except String EngineState :=
  if data.length < 100 then
    Except.error ("Insufficient data for backtest (need at least 100 bars)")
  else
    let sEnd := runLoop cfg now symbol strat (data.take 60) (data.drop 60)
      (initEngineState cfg)
    if (alookup symbol sEnd.openPositions).isSome then
      Except.ok (closePosition cfg now symbol
        ((data.getLastD barDefault).close) ("end_of_backtest") sEnd)
    else Except.ok sEnd

/-- A Trade with its two wall-clock fields (entry_time, exit_time) erased:
everything the simulator computes deterministically from its inputs. -/
structure TradeCore where
  symbol : String
  entryPrice : ℚ
  direction : String
  units : ℤ
  stopLoss : ℚ
  takeProfit : Option ℚ
  exitPrice : Option ℚ
  pnl : ℚ
  pnlPct : ℚ
  exitReason : String
deriving DecidableEq

/-- Erase the wall-clock fields of a trade. -/
def Trade.core (t : Trade) : TradeCore :=
  ⟨t.symbol, t.entryPrice, t.direction, t.units, t.stopLoss, t.takeProfit,
   t.exitPrice, t.pnl, t.pnlPct, t.exitReason⟩

/-- Erase the wall-clock fields of every open position. -/
def posCore (l : List (String × Trade)) : List (String × TradeCore) :=
  l.map fun p => (p.1, p.2.core)

/-- Engine state with wall-clock trade fields erased. -/
structure EngineStateCore where
  capital : ℚ
  equityHistory : List ℚ
  trades : List TradeCore
  openPositions : List (String × TradeCore)
deriving DecidableEq

/-- Erase the wall-clock trade fields of a run state. -/
def stateCore (s : EngineState) : EngineStateCore :=
  ⟨s.capital, s.equityHistory, s.trades.map Trade.core, posCore s.openPositions⟩

/-- The no-pyramiding invariant: at most one open position, and only for the
traded symbol. -/
def positionsOk (symbol : String) (s : EngineState) : Prop :=
  s.openPositions.length ≤ 1 ∧ ∀ p ∈ s.openPositions, p.1 = symbol

/-- Concrete engine configuration for the backtest witnesses: 100000 capital,
no commission, no slippage, 2 percent risk per trade. -/
def demoCfg : EngineConfig := ⟨100000, 0, 0, 1/50⟩

/-- Concrete flat bar whose low never reaches the demo stop. -/
def demoBar : Bar := ⟨100, 101, 99, 100, 1000⟩

/-- Concrete pure strategy: always BUY with a stop at 98. -/
def demoStrat : List Bar → StrategySignal := fun _ => ⟨"BUY", some 98, none⟩

/-- Concrete 100-bar series of identical bars. -/
def demoData : List Bar := List.replicate 100 demoBar

/-- The position the demo run opens on the first loop iteration: 900 units
long from 100 with stop 98, stamped with the ambient clock value. -/
def demoOpenTrade (now : ℤ) : Trade :=
  ⟨"SPY", now, 100, "long", 900, 98, none, none, none, 0, 0, ""⟩

/-- The same trade as closed by the end-of-data sweep at price 100. -/
def demoClosedTrade (now : ℤ) : Trade :=
  ⟨"SPY", now, 100, "long", 900, 98, none, some now, some 100, 0, 0,
   "end_of_backtest"⟩

/-- The demo equity curve: the initial reading plus one reading per replayed
bar, all at the starting capital. -/
def demoEquity : List ℚ := [100000, 100000] ++ List.replicate 39 100000

/-! ## Theorems -/

/-- Helper: a Bool-conditional count contribution is at most one. -/
lemma condCount_le_one (b : Bool) : (bif b then (1:ℕ) else 0) ≤ 1 := by
  cases b <;> simp

/-- Claim C1: whenever the macro signal reports trading_allowed = false,
aggregate_signals returns the no-trade gate record (confidence 0, position
size 0) for every combination of the other two signals, short-circuiting the
weighting, bonus and threshold logic. -/
theorem c1_volatility_gate_absolute (i : AggInputs)
    (h : i.tradingAllowed = false) :
    aggregateSignals i =
      { finalDecision := "no_trade",
        reason := some ("Volatility filter active - near high-impact event"),
        confidence := 0, positionSize := some 0,
        direction := none, signalStrength := none } := by
  simp [aggregateSignals, h]

/-- Witness for C1 at a concrete input where the other two agents are strongly
bullish. -/
theorem c1_volatility_gate_absolute_witness :
    aggregateSignals ⟨"bullish", 9/10, "bullish", 9/10, "bearish", 1, false⟩ =
      { finalDecision := "no_trade",
        reason := some ("Volatility filter active - near high-impact event"),
        confidence := 0, positionSize := some 0,
        direction := none, signalStrength := none } :=
  c1_volatility_gate_absolute ⟨"bullish", 9/10, "bullish", 9/10, "bearish", 1, false⟩ rfl

/-- Claim C2: for positive equity and entry price and any stop and confidence
in the unit interval, the position_pct returned by calculate_position_size
never exceeds max_position_size = 0.10; moreover when the entry equals the
stop the stop distance is floored at 1 percent of the entry price, so the
reported stop_distance_pct is exactly 1. -/
theorem c2_position_size_cap (equity entryPrice stopLoss confidence : ℚ)
    (sym : String) (heq : 0 < equity) (hep : 0 < entryPrice)
    (hc0 : 0 ≤ confidence) (hc1 : confidence ≤ 1) :
    (calculatePositionSize equity sym entryPrice stopLoss confidence).positionPct ≤ 1/10 ∧
    (entryPrice = stopLoss →
      (calculatePositionSize equity sym entryPrice stopLoss confidence).stopDistancePct = 1) := by
  constructor
  · simp only [calculatePositionSize]
    split <;> split
    · exact le_refl _
    · rename_i hnot
      exact le_of_not_lt hnot
    · exact le_refl _
    · rename_i hnot
      exact le_of_not_lt hnot
  · intro hstop
    have hne : entryPrice ≠ 0 := ne_of_gt hep
    have key : entryPrice * (1/100) / entryPrice * 100 = 1 := by
      field_simp
      ring
    simp only [calculatePositionSize, ← hstop, sub_self, abs_zero, reduceIte]
    split <;> exact key

/-- Witness for C2 at a concrete long setup (equity 100000, entry 100,
stop 98, confidence 0.75). -/
theorem c2_position_size_cap_witness :
    (calculatePositionSize 100000 ("SPY") 100 98 (3/4)).positionPct ≤ 1/10 ∧
    ((100:ℚ) = 98 →
      (calculatePositionSize 100000 ("SPY") 100 98 (3/4)).stopDistancePct = 1) :=
  c2_position_size_cap 100000 100 98 (3/4) ("SPY")
    (by norm_num) (by norm_num) (by norm_num) (by norm_num)

/-- Claim C9: with exactly two sources agreeing in direction at confidence
exactly 0.50 and the third at confidence 0.9, the agreement bonus of plus or
minus 0.2 is not applied: total_signal equals the plain weighted sum, because
the agreement count requires confidence strictly above 0.5. -/
theorem c9_agreement_bonus_strict (i : AggInputs)
    (h : (i.trConfidence = 1/2 ∧ i.chStrength = 1/2 ∧
            i.trDirection = i.chDirection ∧ i.macroConfidence = 9/10) ∨
         (i.trConfidence = 1/2 ∧ i.macroConfidence = 1/2 ∧
            i.trDirection = i.macroDirection ∧ i.chStrength = 9/10) ∨
         (i.chStrength = 1/2 ∧ i.macroConfidence = 1/2 ∧
            i.chDirection = i.macroDirection ∧ i.trConfidence = 9/10)) :
    totalSignal i = totalSignalBase i := by
  have hb : bullishCount i ≤ 1 := by
    rcases h with ⟨h1, h2, _, _⟩ | ⟨h1, h2, _, _⟩ | ⟨h1, h2, _, _⟩ <;>
      simp only [bullishCount, signalsList, List.countP, List.countP.go, h1, h2] <;>
      norm_num <;> exact condCount_le_one _
  have hbr : bearishCount i ≤ 1 := by
    rcases h with ⟨h1, h2, _, _⟩ | ⟨h1, h2, _, _⟩ | ⟨h1, h2, _, _⟩ <;>
      simp only [bearishCount, signalsList, List.countP, List.countP.go, h1, h2] <;>
      norm_num <;> exact condCount_le_one _
  unfold totalSignal
  rw [if_neg (by omega), if_neg (by omega)]

/-- Witness for C9: tape reader and chartist both bullish at exactly 0.5 and a
bullish macro source at 0.9 receive no agreement bonus. -/
theorem c9_agreement_bonus_strict_witness :
    totalSignal ⟨"bullish", 1/2, "bullish", 1/2, "bullish", 9/10, true⟩ =
      totalSignalBase ⟨"bullish", 1/2, "bullish", 1/2, "bullish", 9/10, true⟩ :=
  c9_agreement_bonus_strict ⟨"bullish", 1/2, "bullish", 1/2, "bullish", 9/10, true⟩
    (Or.inl ⟨rfl, rfl, rfl, rfl⟩)

/-- Claim C10 counterexample: at win_rate = 0.5, avg_win = 0, avg_loss = 1 the
guard passes (avg_loss is nonzero and the win rate is interior) but the ratio
r = avg_win / avg_loss is 0, so the Kelly formula divides by zero: the Python
code raises ZeroDivisionError instead of returning a value in [0, 0.10]. -/
theorem c10_kelly_counterexample : calculateKellySize (1/2) 0 1 = none := by
  norm_num [calculateKellySize]

/-- Claim C10 (amended): calculate_kelly_size returns 0 when avg_loss = 0 or
win_rate lies outside (0,1); whenever it returns at all (that is, unless the
guard passes with avg_win = 0, where the division by r = 0 raises), the result
lies in the closed interval [0, max_position_size] = [0, 0.10]. -/
theorem c10_kelly_bounds (winRate avgWin avgLoss : ℚ)
    (h : avgWin ≠ 0 ∨ avgLoss = 0 ∨ ¬(0 < winRate ∧ winRate < 1)) :
    ∃ v, calculateKellySize winRate avgWin avgLoss = some v ∧
      0 ≤ v ∧ v ≤ 1/10 ∧
      ((avgLoss = 0 ∨ ¬(0 < winRate ∧ winRate < 1)) → v = 0) := by
  by_cases hg : avgLoss = 0 ∨ ¬(0 < winRate ∧ winRate < 1)
  · refine ⟨0, ?_, le_refl 0, by norm_num, fun _ => rfl⟩
    simp only [calculateKellySize]
    rw [if_pos hg]
  · have hw : avgWin ≠ 0 := h.resolve_right hg
    have hps := hg
    push_neg at hps
    have hr : avgWin / avgLoss ≠ 0 := div_ne_zero hw hps.1
    refine ⟨min (max 0 ((winRate - (1 - winRate) / (avgWin / avgLoss)) * (1/4))) (1/10),
      ?_, le_min (le_max_left 0 _) (by norm_num), min_le_right _ _,
      fun hc => absurd hc hg⟩
    simp only [calculateKellySize]
    rw [if_neg hg, if_neg hr]

/-- Witness for C10 at win_rate = 0.6, avg_win = 2, avg_loss = 1. -/
theorem c10_kelly_bounds_witness :
    ∃ v, calculateKellySize (3/5) 2 1 = some v ∧
      0 ≤ v ∧ v ≤ 1/10 ∧
      (((1:ℚ) = 0 ∨ ¬((0:ℚ) < 3/5 ∧ (3/5:ℚ) < 1)) → v = 0) :=
  c10_kelly_bounds (3/5) 2 1 (Or.inl (by norm_num))

/-! ### Volume profile lemmas -/

/-- Folding with min never exceeds the initial accumulator. -/
lemma foldl_min_le (l : List ℚ) (a : ℚ) : List.foldl min a l ≤ a := by
  induction l generalizing a with
  | nil => exact le_refl a
  | cons x xs ih => exact le_trans (ih (min a x)) (min_le_left a x)

/-- A common lower bound of the accumulator and the list persists through a
min fold. -/
lemma le_foldl_min (l : List ℚ) (a c : ℚ) (ha : c ≤ a)
    (hl : ∀ x ∈ l, c ≤ x) : c ≤ List.foldl min a l := by
  induction l generalizing a with
  | nil => exact ha
  | cons x xs ih =>
    exact ih (min a x) (le_min ha (hl x (List.mem_cons_self x xs)))
      fun y hy => hl y (List.mem_cons_of_mem x hy)

/-- Folding with max is at least the initial accumulator. -/
lemma le_foldl_max (l : List ℚ) (a : ℚ) : a ≤ List.foldl max a l := by
  induction l generalizing a with
  | nil => exact le_refl a
  | cons x xs ih => exact le_trans (le_max_left a x) (ih (max a x))

/-- Clipped bin indices stay below the bucket count. -/
lemma clipBin_le (x : ℤ) : clipBin x ≤ 99 := by
  unfold clipBin
  split
  · omega
  · split
    · omega
    · omega

/-- Clipping preserves order. -/
lemma clipBin_mono {x y : ℤ} (h : x ≤ y) : clipBin x ≤ clipBin y := by
  unfold clipBin
  split_ifs <;> omega

/-- With a positive bin size, a well-formed bar starts at or before the
bucket where it ends. -/
lemma startBin_le_endBin (bars : List Bar) (b : Bar)
    (hlh : b.low ≤ b.high) (hbs : 0 < binSize bars) :
    startBin bars b ≤ endBin bars b := by
  unfold startBin endBin
  apply clipBin_mono
  apply Int.floor_le_floor
  gcongr

/-- Summing a mapped List.range agrees with a Finset.range sum. -/
lemma sum_range_map (f : ℕ → ℚ) (n : ℕ) :
    ((List.range n).map f).sum = ∑ i in Finset.range n, f i := by
  induction n with
  | zero => simp
  | succ n ih =>
    rw [List.range_succ, List.map_append, List.sum_append,
      Finset.sum_range_succ, ih]
    simp

/-- Exchanging a Finset.range sum with a list sum of mapped bars. -/
lemma sum_swap_bars (l : List Bar) (g : ℕ → Bar → ℚ) (n : ℕ) :
    ∑ i in Finset.range n, (l.map (g i)).sum =
      (l.map fun b => ∑ i in Finset.range n, g i b).sum := by
  induction l with
  | nil => simp
  | cons b bs ih =>
    simp only [List.map_cons, List.sum_cons, Finset.sum_add_distrib, ih]

/-- Each bar contributes exactly its own volume to the whole profile: the
slice it touches has e - s + 1 buckets and each receives v / (e - s + 1). -/
lemma barContrib_total (bars : List Bar) (b : Bar)
    (hse : startBin bars b ≤ endBin bars b) :
    ∑ i in Finset.range 100, barContrib bars i b = b.volume := by
  have he : endBin bars b ≤ 99 := clipBin_le _
  unfold barContrib
  rw [← Finset.sum_filter]
  have hf : (Finset.range 100).filter
      (fun i => startBin bars b ≤ i ∧ i ≤ endBin bars b) =
      Finset.Icc (startBin bars b) (endBin bars b) := by
    ext i
    simp only [Finset.mem_filter, Finset.mem_range, Finset.mem_Icc]
    omega
  rw [hf, Finset.sum_const, Nat.card_Icc]
  have hcount : endBin bars b + 1 - startBin bars b =
      endBin bars b - startBin bars b + 1 := by omega
  have hne : ((endBin bars b - startBin bars b + 1 : ℕ) : ℚ) ≠ 0 :=
    Nat.cast_ne_zero.mpr (by omega)
  rw [hcount, nsmul_eq_mul]
  unfold touchedBins
  rw [mul_comm]
  exact div_mul_cancel₀ _ hne

/-- Claim C3: for a window of bars with high at or above low and nonnegative
volume whose computed bin size is positive, the bucket volumes of the built
profile sum to exactly the total input volume: each bar of volume v is spread
as v / bins_touched over exactly bins_touched buckets. -/
theorem c3_volume_conservation (bars : List Bar) (hne : bars ≠ [])
    (hwf : ∀ b ∈ bars, b.low ≤ b.high ∧ 0 ≤ b.volume)
    (hbs : 0 < binSize bars) :
    (profileVolumes bars).sum = (bars.map Bar.volume).sum := by
  unfold profileVolumes
  rw [sum_range_map (fun i => (bars.map (barContrib bars i)).sum) 100,
    sum_swap_bars]
  congr 1
  apply List.map_congr_left
  intro b hb
  exact barContrib_total bars b (startBin_le_endBin bars b (hwf b hb).1 hbs)

/-- Witness for C3 on the concrete two-bar window. -/
theorem c3_volume_conservation_witness :
    (profileVolumes vpDemoBars).sum = (vpDemoBars.map Bar.volume).sum := by
  apply c3_volume_conservation
  · simp [vpDemoBars]
  · intro b hb
    simp only [vpDemoBars, List.mem_cons, List.not_mem_nil, or_false] at hb
    rcases hb with rfl | rfl <;> norm_num
  · norm_num [binSize, priceRange, rawRange, priceMinOf, priceMaxOf,
      vpDemoBars, min_def, max_def]

/-- The value area expansion loop only ever widens the bin interval. -/
lemma expandValueArea_bounds (profile : List ℚ) (target : ℚ) :
    ∀ fuel cur lo hi,
      (expandValueArea profile target fuel cur lo hi).1 ≤ lo ∧
      hi ≤ (expandValueArea profile target fuel cur lo hi).2 := by
  intro fuel
  induction fuel with
  | zero => exact fun cur lo hi => ⟨le_refl _, le_refl _⟩
  | succ n ih =>
    intro cur lo hi
    simp only [expandValueArea]
    split_ifs <;>
      first
        | exact ⟨le_refl _, le_refl _⟩
        | exact ⟨(ih _ _ _).1, le_trans (Nat.le_succ hi) (ih _ _ _).2⟩
        | exact ⟨le_trans (ih _ _ _).1 (Nat.sub_le lo 1), (ih _ _ _).2⟩

/-- Claim C4: for every window of bars satisfying the Bar invariant (prices
nonnegative, high at or above low) including empty and degenerate zero-range
windows, the built profile satisfies val ≤ poc ≤ vah: the value-area
expansion keeps low_bin ≤ poc_bin ≤ high_bin, VAL is the low bin lower edge,
VAH the high bin upper edge plus one bin, and POC the POC bin midpoint. -/
theorem c4_value_area_ordering (bars : List Bar)
    (hwf : ∀ b ∈ bars, 0 ≤ b.low ∧ b.low ≤ b.high) :
    (buildVolumeProfile bars).val ≤ (buildVolumeProfile bars).poc ∧
    (buildVolumeProfile bars).poc ≤ (buildVolumeProfile bars).vah := by
  cases bars with
  | nil => simp [buildVolumeProfile]
  | cons b0 rest =>
    have h0 := hwf b0 (List.mem_cons_self b0 rest)
    have hpmin_le : priceMinOf (b0 :: rest) ≤ b0.low := by
      simp only [priceMinOf]
      exact foldl_min_le _ _
    have hmax_ge : b0.high ≤ priceMaxOf (b0 :: rest) := by
      simp only [priceMaxOf]
      exact le_foldl_max _ _
    have hpmin0 : 0 ≤ priceMinOf (b0 :: rest) := by
      simp only [priceMinOf]
      apply le_foldl_min _ _ _ h0.1
      intro x hx
      obtain ⟨b, hbmem, rfl⟩ := List.mem_map.mp hx
      exact (hwf b (List.mem_cons_of_mem b0 hbmem)).1
    have hraw : 0 ≤ rawRange (b0 :: rest) := by
      unfold rawRange
      have := le_trans hpmin_le (le_trans h0.2 hmax_ge)
      linarith
    have hbs : 0 ≤ binSize (b0 :: rest) := by
      unfold binSize priceRange
      split
      · have := mul_nonneg hpmin0 (by norm_num : (0:ℚ) ≤ 1/100)
        linarith
      · linarith
    have hmono : ∀ i1 i2 : ℕ, i1 ≤ i2 →
        priceBinsFn (b0 :: rest) i1 ≤ priceBinsFn (b0 :: rest) i2 := by
      intro i1 i2 h
      unfold priceBinsFn
      have hc : (i1 : ℚ) ≤ i2 := Nat.cast_le.mpr h
      have := mul_le_mul_of_nonneg_right hc hraw
      linarith
    set profile := profileVolumes (b0 :: rest) with hprof
    set pocBin := argmaxIdx profile with hpoc
    obtain ⟨hlo, hhi⟩ := expandValueArea_bounds profile (profile.sum * (7/10))
      profile.length (profile.getD pocBin 0) pocBin pocBin
    simp only [buildVolumeProfile, List.isEmpty_cons, Bool.false_eq_true,
      if_false, calculateValueArea, ← hprof, ← hpoc]
    constructor
    · have := hmono _ _ hlo
      have hb2 : 0 ≤ binSize (b0 :: rest) / 2 := by linarith
      linarith
    · have := hmono _ _ hhi
      linarith

/-- Witness for C4 on the concrete two-bar window. -/
theorem c4_value_area_ordering_witness :
    (buildVolumeProfile vpDemoBars).val ≤ (buildVolumeProfile vpDemoBars).poc ∧
    (buildVolumeProfile vpDemoBars).poc ≤ (buildVolumeProfile vpDemoBars).vah := by
  apply c4_value_area_ordering
  intro b hb
  simp only [vpDemoBars, List.mem_cons, List.not_mem_nil, or_false] at hb
  rcases hb with rfl | rfl <;> norm_num

/-! ### Order flow lemmas -/

/-- cumsum preserves length. -/
lemma cumsum_length (a : ℚ) (l : List ℚ) : (cumsum a l).length = l.length := by
  induction l generalizing a with
  | nil => rfl
  | cons x xs ih => simp [cumsum, ih]

/-- The cumulative delta series has one entry per bar. -/
lemma cumDeltas_length (bars : List Bar) :
    (cumDeltas bars).length = bars.length := by
  unfold cumDeltas deltas
  rw [cumsum_length, List.length_map]

/-- The last element of a nonempty list is a member. -/
lemma lastQ_mem (l : List ℚ) (h : l ≠ []) : lastQ l ∈ l := by
  induction l with
  | nil => exact absurd rfl h
  | cons x xs ih =>
    cases xs with
    | nil => simp [lastQ]
    | cons y rest =>
      simp only [lastQ]
      exact List.mem_cons_of_mem x (ih (by simp))

/-- On a strictly decreasing list of length at least 2 the last element is
below the first. -/
lemma lastQ_lt_headQ (l : List ℚ) (hp : List.Pairwise (· > ·) l)
    (hl : 2 ≤ l.length) : lastQ l < headQ l := by
  cases l with
  | nil => simp at hl
  | cons x xs =>
    cases xs with
    | nil => simp at hl
    | cons y rest =>
      have hx : ∀ b ∈ y :: rest, x > b := (List.pairwise_cons.mp hp).1
      have hmem : lastQ (y :: rest) ∈ y :: rest := lastQ_mem _ (by simp)
      simpa [lastQ, headQ] using hx _ hmem

/-- On a strictly increasing list of length at least 2 the first element is
below the last. -/
lemma headQ_lt_lastQ (l : List ℚ) (hp : List.Pairwise (· < ·) l)
    (hl : 2 ≤ l.length) : headQ l < lastQ l := by
  cases l with
  | nil => simp at hl
  | cons x xs =>
    cases xs with
    | nil => simp at hl
    | cons y rest =>
      have hx : ∀ b ∈ y :: rest, x < b := (List.pairwise_cons.mp hp).1
      have hmem : lastQ (y :: rest) ∈ y :: rest := lastQ_mem _ (by simp)
      simpa [lastQ, headQ] using hx _ hmem

/-- The trailing window of a long enough series has full lookback length. -/
lemma lastN_length (n : ℕ) (l : List ℚ) (h : n ≤ l.length) :
    (lastN n l).length = n := by
  unfold lastN
  rw [List.length_drop]
  omega

/-- Claim C6 counterexample: on the empty window analyze_orderflow reaches
bars.iloc[-1] with no rows and raises IndexError (modelled as none); it does
not return a structured insufficient data result. -/
theorem c6_orderflow_counterexample : analyzeOrderflow [] = none := rfl

/-- Claim C6 (amended): analyze_orderflow has no insufficient-data guard: the
empty window raises (none); the structured error response for missing data
lives in its caller analyze_symbol.  On a non-degenerate window of at least
two bars it returns a normal analysis, and when the window is shorter than
the exhaustion lookback of 10 that analysis simply carries no exhaustion
signal rather than an insufficient data marker. -/
theorem c6_orderflow_insufficient_data :
    analyzeOrderflow [] = none ∧
    ∀ bars : List Bar, 2 ≤ bars.length → sampleVar (deltas bars) ≠ 0 →
      ∃ r, analyzeOrderflow bars = some r ∧
        (bars.length < 10 → r.exhaustion = none) := by
  constructor
  · rfl
  · intro bars h2 hv
    simp only [analyzeOrderflow]
    rw [if_neg (by omega), if_neg hv]
    refine ⟨_, rfl, fun hlt => ?_⟩
    simp only [detectDeltaExhaustion]
    rw [if_pos]
    rw [cumDeltas_length]
    omega

/-- Witness for C6 on the concrete three-bar window. -/
theorem c6_orderflow_insufficient_data_witness :
    ∃ r, analyzeOrderflow ofDemoBars = some r ∧
      (ofDemoBars.length < 10 → r.exhaustion = none) :=
  c6_orderflow_insufficient_data.2 ofDemoBars
    (by norm_num [ofDemoBars])
    (by norm_num [sampleVar, deltas, ofDemoBars, estimatedDelta, meanQ])

/-- Claim C7 counterexample: a 10-bar window where cumulative delta strictly
decreases (by 9) while close strictly increases by 27, more than twice the
delta decline, as the claim demands; detect_delta_exhaustion returns no
signal at all there, because the divergence ratio 9 / (27 + 1e-10) is below
the 0.5 threshold, contradicting the claimed bearish signal of confidence
at least 0.5. -/
theorem c7_exhaustion_counterexample :
    List.Pairwise (· > ·) c7Delta ∧ List.Pairwise (· < ·) c7Price ∧
    2 * (headQ c7Delta - lastQ c7Delta) < lastQ c7Price - headQ c7Price ∧
    detectDeltaExhaustion c7Delta c7Price 10 = none := by
  refine ⟨?_, ?_, ?_, ?_⟩
  · norm_num [c7Delta, List.pairwise_cons]
  · norm_num [c7Price, List.pairwise_cons]
  · norm_num [c7Delta, c7Price, headQ, lastQ]
  · simp only [detectDeltaExhaustion, trendOf, lastN, c7Delta, c7Price,
      epsSmall]
    norm_num [headQ, lastQ]

/-- Claim C7 (amended): over a window of at least the lookback of 10, with
the trailing cumulative delta strictly decreasing and the trailing close
strictly increasing, detect_delta_exhaustion reports bearish exhaustion with
confidence at least 0.5 exactly when the divergence ratio
delta_decline / (price_rise + 1e-10) exceeds 0.5, that is when the close
rises by less than twice the delta decline (up to the epsilon) - not, as the
claim stated it, by more than twice; the bullish case is symmetric. -/
theorem c7_exhaustion_divergence (cd price : List ℚ)
    (hlen : 10 ≤ cd.length) (hplen : 10 ≤ price.length) :
    (List.Pairwise (· > ·) (lastN 10 cd) →
     List.Pairwise (· < ·) (lastN 10 price) →
     1/2 < |trendOf cd 10| / (|trendOf price 10| + epsSmall) →
     ∃ s, detectDeltaExhaustion cd price 10 = some s ∧
       s.signalType = "bearish" ∧ s.pattern = "exhaustion" ∧
       1/2 ≤ s.confidence) ∧
    (List.Pairwise (· < ·) (lastN 10 cd) →
     List.Pairwise (· > ·) (lastN 10 price) →
     1/2 < |trendOf cd 10| / (|trendOf price 10| + epsSmall) →
     ∃ s, detectDeltaExhaustion cd price 10 = some s ∧
       s.signalType = "bullish" ∧ s.pattern = "exhaustion" ∧
       1/2 ≤ s.confidence) := by
  have hcl : (lastN 10 cd).length = 10 := lastN_length _ _ hlen
  have hpl : (lastN 10 price).length = 10 := lastN_length _ _ hplen
  have heps : (0:ℚ) < |trendOf price 10| + epsSmall := by
    have := abs_nonneg (trendOf price 10)
    unfold epsSmall
    linarith
  have hds0 : 0 ≤ |trendOf cd 10| / (|trendOf price 10| + epsSmall) :=
    div_nonneg (abs_nonneg _) (le_of_lt heps)
  have hconf : ∀ ds : ℚ, 1/2 < ds → 0 ≤ ds →
      1/2 ≤ min ((9:ℚ)/10) (1/2 + ds * (2/5)) := by
    intro ds h1 h2
    apply le_min (by norm_num)
    nlinarith
  constructor
  · intro hdec hinc hds
    have hdt : trendOf cd 10 < 0 := by
      have := lastQ_lt_headQ (lastN 10 cd) hdec (by omega)
      unfold trendOf
      linarith
    have hpt : 0 < trendOf price 10 := by
      have := headQ_lt_lastQ (lastN 10 price) hinc (by omega)
      unfold trendOf
      linarith
    simp only [detectDeltaExhaustion]
    rw [if_neg (by omega), if_pos ⟨hpt, hdt⟩, if_pos hds]
    exact ⟨_, rfl, rfl, rfl, hconf _ hds hds0⟩
  · intro hinc hdec hds
    have hdt : 0 < trendOf cd 10 := by
      have := headQ_lt_lastQ (lastN 10 cd) hinc (by omega)
      unfold trendOf
      linarith
    have hpt : trendOf price 10 < 0 := by
      have := lastQ_lt_headQ (lastN 10 price) hdec (by omega)
      unfold trendOf
      linarith
    simp only [detectDeltaExhaustion]
    rw [if_neg (by omega), if_neg (by rintro ⟨h1, _⟩; linarith),
      if_pos ⟨hpt, hdt⟩, if_pos hds]
    exact ⟨_, rfl, rfl, rfl, hconf _ hds hds0⟩

/-- Witness for C7: a strictly decreasing delta series falling by 9 while
the close rises by only 9 (divergence ratio just below 1) triggers the
bearish exhaustion signal. -/
theorem c7_exhaustion_divergence_witness :
    ∃ s, detectDeltaExhaustion c7Delta
        [100, 101, 102, 103, 104, 105, 106, 107, 108, 109] 10 = some s ∧
      s.signalType = "bearish" ∧ s.pattern = "exhaustion" ∧
      1/2 ≤ s.confidence :=
  (c7_exhaustion_divergence c7Delta
      [100, 101, 102, 103, 104, 105, 106, 107, 108, 109]
      (by norm_num [c7Delta]) (by norm_num)).1
    (by norm_num [c7Delta, lastN, List.pairwise_cons])
    (by norm_num [lastN, List.pairwise_cons])
    (by norm_num [trendOf, lastN, c7Delta, headQ, lastQ, epsSmall])

/-! ### Backtest determinism up to wall-clock timestamps -/

/-- Lookup commutes with erasing the wall-clock fields. -/
lemma alookup_posCore (k : String) (l : List (String × Trade)) :
    alookup k (posCore l) = (alookup k l).map Trade.core := by
  induction l with
  | nil => rfl
  | cons p rest ih =>
    by_cases hk : p.1 = k
    · simp [posCore, alookup, hk]
    · simp only [posCore, List.map_cons, alookup, hk, if_neg, if_false]
      exact ih

/-- Removal commutes with erasing the wall-clock fields. -/
lemma aerase_posCore (k : String) (l : List (String × Trade)) :
    posCore (aerase k l) = aerase k (posCore l) := by
  induction l with
  | nil => rfl
  | cons p rest ih =>
    by_cases hk : p.1 = k
    · simp only [aerase, posCore, List.map_cons, hk, if_pos, if_true]
      exact ih
    · simp only [aerase, posCore, List.map_cons, hk, if_neg, if_false]
      exact congrArg (List.cons (p.1, p.2.core)) ih

/-- posCore distributes over cons. -/
lemma posCore_cons (p : String × Trade) (l : List (String × Trade)) :
    posCore (p :: l) = (p.1, p.2.core) :: posCore l := rfl

/-- Congruence of core-equality through a shared conditional. -/
lemma ite_core (c : Prop) [Decidable c] {a1 a2 b1 b2 : EngineState}
    (ha : stateCore a1 = stateCore a2) (hb : stateCore b1 = stateCore b2) :
    stateCore (if c then a1 else b1) = stateCore (if c then a2 else b2) := by
  split_ifs <;> assumption

/-- Closing a position at two different clock readings produces the same
state up to wall-clock trade fields. -/
lemma closePosition_core (cfg : EngineConfig) (n1 n2 : ℤ) (sym : String)
    (price : ℚ) (reason : String) {s1 s2 : EngineState}
    (h : stateCore s1 = stateCore s2) :
    stateCore (closePosition cfg n1 sym price reason s1) =
      stateCore (closePosition cfg n2 sym price reason s2) := by
  have hcap : s1.capital = s2.capital := congrArg EngineStateCore.capital h
  have heqh : s1.equityHistory = s2.equityHistory :=
    congrArg EngineStateCore.equityHistory h
  have htr : s1.trades.map Trade.core = s2.trades.map Trade.core :=
    congrArg EngineStateCore.trades h
  have hpos : posCore s1.openPositions = posCore s2.openPositions :=
    congrArg EngineStateCore.openPositions h
  have hl : (alookup sym s1.openPositions).map Trade.core =
      (alookup sym s2.openPositions).map Trade.core := by
    rw [← alookup_posCore, ← alookup_posCore, hpos]
  cases h1 : alookup sym s1.openPositions with
  | none =>
    cases h2 : alookup sym s2.openPositions with
    | none => simp only [closePosition, h1, h2]; exact h
    | some t2 => rw [h1, h2] at hl; simp at hl
  | some t1 =>
    cases h2 : alookup sym s2.openPositions with
    | none => rw [h1, h2] at hl; simp at hl
    | some t2 =>
      rw [h1, h2] at hl
      have hc : t1.core = t2.core := by simpa using hl
      have hdir : t1.direction = t2.direction := congrArg TradeCore.direction hc
      have hep : t1.entryPrice = t2.entryPrice := congrArg TradeCore.entryPrice hc
      have hun : t1.units = t2.units := congrArg TradeCore.units hc
      have hsl : t1.stopLoss = t2.stopLoss := congrArg TradeCore.stopLoss hc
      have htp : t1.takeProfit = t2.takeProfit := congrArg TradeCore.takeProfit hc
      have hsym : t1.symbol = t2.symbol := congrArg TradeCore.symbol hc
      simp only [closePosition, h1, h2, stateCore, List.map_append,
        List.map_cons, List.map_nil, Trade.core, aerase_posCore]
      rw [hdir, hep, hun, hsym, hsl, htp, hcap, heqh, htr, hpos]

/-- Checking stops at two different clock readings produces the same state
up to wall-clock trade fields. -/
lemma checkStops_core (cfg : EngineConfig) (n1 n2 : ℤ) (sym : String)
    (bar : Bar) {s1 s2 : EngineState}
    (h : stateCore s1 = stateCore s2) :
    stateCore (checkStops cfg n1 sym bar s1) =
      stateCore (checkStops cfg n2 sym bar s2) := by
  have hpos : posCore s1.openPositions = posCore s2.openPositions :=
    congrArg EngineStateCore.openPositions h
  have hl : (alookup sym s1.openPositions).map Trade.core =
      (alookup sym s2.openPositions).map Trade.core := by
    rw [← alookup_posCore, ← alookup_posCore, hpos]
  cases h1 : alookup sym s1.openPositions with
  | none =>
    cases h2 : alookup sym s2.openPositions with
    | none => simp only [checkStops, h1, h2]; exact h
    | some t2 => rw [h1, h2] at hl; simp at hl
  | some t1 =>
    cases h2 : alookup sym s2.openPositions with
    | none => rw [h1, h2] at hl; simp at hl
    | some t2 =>
      rw [h1, h2] at hl
      have hc : t1.core = t2.core := by simpa using hl
      have hdir : t1.direction = t2.direction := congrArg TradeCore.direction hc
      have hsl : t1.stopLoss = t2.stopLoss := congrArg TradeCore.stopLoss hc
      have htp : t1.takeProfit = t2.takeProfit := congrArg TradeCore.takeProfit hc
      simp only [checkStops, h1, h2]
      rw [hdir, hsl, htp]
      set a1 := (if t2.direction = "long" then
            if bar.low ≤ t2.stopLoss
            then closePosition cfg n1 sym t2.stopLoss ("stop_loss") s1 else s1
          else
            if t2.stopLoss ≤ bar.high
            then closePosition cfg n1 sym t2.stopLoss ("stop_loss") s1 else s1)
        with ha1
      set a2 := (if t2.direction = "long" then
            if bar.low ≤ t2.stopLoss
            then closePosition cfg n2 sym t2.stopLoss ("stop_loss") s2 else s2
          else
            if t2.stopLoss ≤ bar.high
            then closePosition cfg n2 sym t2.stopLoss ("stop_loss") s2 else s2)
        with ha2
      have hstep1 : stateCore a1 = stateCore a2 := by
        rw [ha1, ha2]
        apply ite_core
        · exact ite_core _ (closePosition_core cfg n1 n2 sym _ _ h) h
        · exact ite_core _ (closePosition_core cfg n1 n2 sym _ _ h) h
      cases t2.takeProfit with
      | none => exact hstep1
      | some tp =>
        dsimp only
        split_ifs <;>
          first
            | exact hstep1
            | exact closePosition_core cfg n1 n2 sym _ _ hstep1

/-- Executing a signal at two different clock readings produces the same
state up to wall-clock trade fields. -/
lemma executeSignal_core (cfg : EngineConfig) (n1 n2 : ℤ) (sym : String)
    (signal : StrategySignal) (bar : Bar) {s1 s2 : EngineState}
    (h : stateCore s1 = stateCore s2) :
    stateCore (executeSignal cfg n1 sym signal bar s1) =
      stateCore (executeSignal cfg n2 sym signal bar s2) := by
  have hcap : s1.capital = s2.capital := congrArg EngineStateCore.capital h
  have heqh : s1.equityHistory = s2.equityHistory :=
    congrArg EngineStateCore.equityHistory h
  have htr : s1.trades.map Trade.core = s2.trades.map Trade.core :=
    congrArg EngineStateCore.trades h
  have hpos : posCore s1.openPositions = posCore s2.openPositions :=
    congrArg EngineStateCore.openPositions h
  have hl : (alookup sym s1.openPositions).map Trade.core =
      (alookup sym s2.openPositions).map Trade.core := by
    rw [← alookup_posCore, ← alookup_posCore, hpos]
  have hiso : (alookup sym s1.openPositions).isSome =
      (alookup sym s2.openPositions).isSome := by
    have := congrArg Option.isSome hl
    simpa using this
  simp only [executeSignal]
  rw [hiso, hcap]
  split_ifs <;>
    first
      | exact h
      | · simp only [stateCore, posCore_cons, Trade.core]
          rw [heqh, htr, hpos]

/-- Updating equity depends on the state only through its core. -/
lemma updateEquity_core (price : ℚ) {s1 s2 : EngineState}
    (h : stateCore s1 = stateCore s2) :
    stateCore (updateEquity price s1) = stateCore (updateEquity price s2) := by
  have hcap : s1.capital = s2.capital := congrArg EngineStateCore.capital h
  have heqh : s1.equityHistory = s2.equityHistory :=
    congrArg EngineStateCore.equityHistory h
  have htr : s1.trades.map Trade.core = s2.trades.map Trade.core :=
    congrArg EngineStateCore.trades h
  have hpos : posCore s1.openPositions = posCore s2.openPositions :=
    congrArg EngineStateCore.openPositions h
  have hmm : ∀ l : List (String × Trade),
      (l.map fun p => if p.2.direction = "long"
        then (price - p.2.entryPrice) * (p.2.units : ℚ)
        else (p.2.entryPrice - price) * (p.2.units : ℚ)) =
      (posCore l).map fun q => if q.2.direction = "long"
        then (price - q.2.entryPrice) * (q.2.units : ℚ)
        else (q.2.entryPrice - price) * (q.2.units : ℚ) := by
    intro l
    unfold posCore
    rw [List.map_map]
    rfl
  simp only [updateEquity, stateCore]
  rw [hcap, heqh, htr, hmm, hpos, hmm]

/-- One loop iteration depends on the state only through its core. -/
lemma barStep_core (cfg : EngineConfig) (n1 n2 : ℤ) (sym : String)
    (strat : List Bar → StrategySignal) (w : List Bar) (bar : Bar)
    {s1 s2 : EngineState} (h : stateCore s1 = stateCore s2) :
    stateCore (barStep cfg n1 sym strat w bar s1) =
      stateCore (barStep cfg n2 sym strat w bar s2) := by
  simp only [barStep]
  apply updateEquity_core
  have h1 := checkStops_core cfg n1 n2 sym bar h
  exact ite_core _ (executeSignal_core cfg n1 n2 sym (strat w) bar h1) h1

/-- The whole replay loop depends on the state only through its core. -/
lemma runLoop_core (cfg : EngineConfig) (n1 n2 : ℤ) (sym : String)
    (strat : List Bar → StrategySignal) :
    ∀ (future past : List Bar) {s1 s2 : EngineState},
      stateCore s1 = stateCore s2 →
      stateCore (runLoop cfg n1 sym strat past future s1) =
        stateCore (runLoop cfg n2 sym strat past future s2) := by
  intro future
  induction future with
  | nil => intro past s1 s2 h; simpa only [runLoop] using h
  | cons bar rest ih =>
    intro past s1 s2 h
    simp only [runLoop]
    exact ih _ (barStep_core cfg n1 n2 sym strat _ bar h)

/-- Claim C5 (amended): run_backtest is deterministic in everything except
the entry_time and exit_time fields of the trades, which are wall-clock
datetime.now() readings and differ between two runs.  For any two clock
values, two runs with the same constructor parameters, symbol, bar data and
pure strategy yield the same equity curve, the same final capital, the same
open positions, and the same trade list up to those two timestamp fields. -/
theorem c5_backtest_determinism_mod_timestamps (cfg : EngineConfig)
    (sym : String) (data : List Bar) (strat : List Bar → StrategySignal)
    (n1 n2 : ℤ) :
    Except.map stateCore (runBacktest cfg n1 sym data strat) =
      Except.map stateCore (runBacktest cfg n2 sym data strat) := by
  simp only [runBacktest]
  by_cases hlen : data.length < 100
  · rw [if_pos hlen, if_pos hlen]
  · rw [if_neg hlen, if_neg hlen]
    have hend := runLoop_core cfg n1 n2 sym strat (data.drop 60) (data.take 60)
      (rfl : stateCore (initEngineState cfg) = stateCore (initEngineState cfg))
    have hpos : posCore (runLoop cfg n1 sym strat (data.take 60) (data.drop 60)
          (initEngineState cfg)).openPositions =
        posCore (runLoop cfg n2 sym strat (data.take 60) (data.drop 60)
          (initEngineState cfg)).openPositions :=
      congrArg EngineStateCore.openPositions hend
    have hl : (alookup sym (runLoop cfg n1 sym strat (data.take 60)
          (data.drop 60) (initEngineState cfg)).openPositions).map Trade.core =
        (alookup sym (runLoop cfg n2 sym strat (data.take 60) (data.drop 60)
          (initEngineState cfg)).openPositions).map Trade.core := by
      rw [← alookup_posCore, ← alookup_posCore, hpos]
    have hiso : (alookup sym (runLoop cfg n1 sym strat (data.take 60)
          (data.drop 60) (initEngineState cfg)).openPositions).isSome =
        (alookup sym (runLoop cfg n2 sym strat (data.take 60) (data.drop 60)
          (initEngineState cfg)).openPositions).isSome := by
      have := congrArg Option.isSome hl
      simpa using this
    rw [hiso]
    by_cases hs : (alookup sym (runLoop cfg n2 sym strat (data.take 60)
        (data.drop 60) (initEngineState cfg)).openPositions).isSome = true
    · rw [if_pos hs, if_pos hs]
      simp only [Except.map]
      exact congrArg Except.ok (closePosition_core cfg n1 n2 sym _ _ hend)
    · rw [if_neg hs, if_neg hs]
      simp only [Except.map]
      exact congrArg Except.ok hend

/-- The replay loop on an exhausted future is inert. -/
lemma runLoop_nil (cfg : EngineConfig) (now : ℤ) (sym : String)
    (strat : List Bar → StrategySignal) (past : List Bar) (s : EngineState) :
    runLoop cfg now sym strat past [] s = s := rfl

/-- One unfolding of the replay loop. -/
lemma runLoop_cons (cfg : EngineConfig) (now : ℤ) (sym : String)
    (strat : List Bar → StrategySignal) (past : List Bar) (bar : Bar)
    (future : List Bar) (s : EngineState) :
    runLoop cfg now sym strat past (bar :: future) s =
      runLoop cfg now sym strat (past ++ [bar]) future
        (barStep cfg now sym strat (lastBars 60 past) bar s) := rfl

/-- The last element of a nonempty replicated list. -/
lemma getLastD_replicate (n : ℕ) (a d : Bar) (h : n ≠ 0) :
    (List.replicate n a).getLastD d = a := by
  induction n generalizing d with
  | zero => exact absurd rfl h
  | succ m ih =>
    cases m with
    | zero => rfl
    | succ k =>
      rw [List.replicate_succ, List.getLastD_cons]
      exact ih a (by omega)

/-- The first loop iteration of the demo run: no position is open, the
strategy says BUY, 900 units are opened at 100 with stop 98, and the equity
curve records the unchanged capital. -/
lemma demo_first_step (now : ℤ) (w : List Bar) :
    barStep demoCfg now ("SPY") demoStrat w demoBar (initEngineState demoCfg) =
      ⟨100000, [100000, 100000], [], [("SPY", demoOpenTrade now)]⟩ := by
  have hcs : checkStops demoCfg now ("SPY") demoBar (initEngineState demoCfg) =
      initEngineState demoCfg := rfl
  have hex : executeSignal demoCfg now ("SPY") ⟨"BUY", some 98, none⟩ demoBar
      (initEngineState demoCfg) =
      ⟨100000, [100000], [], [("SPY", demoOpenTrade now)]⟩ := by
    simp only [executeSignal, initEngineState, demoCfg, demoBar, alookup]
    norm_num [pyTrunc, demoOpenTrade]
  simp only [barStep, demoStrat, hcs]
  rw [if_pos (Or.inl trivial)]
  rw [hex]
  norm_num [updateEquity, demoOpenTrade, demoBar]

/-- While the demo position is open, every loop iteration leaves capital,
trades and positions unchanged and only appends one equity reading: the bar
neither hits the stop at 98 (its low is 99) nor carries a take profit, and
the BUY signal is ignored because a position is already open. -/
lemma demo_steady (now : ℤ) :
    ∀ (n : ℕ) (past : List Bar) (s : EngineState) (t : Trade),
      s.openPositions = [("SPY", t)] → t.direction = "long" →
      t.stopLoss = 98 → t.takeProfit = none →
      runLoop demoCfg now ("SPY") demoStrat past (List.replicate n demoBar) s =
        { s with equityHistory := s.equityHistory ++
            List.replicate n (s.capital + (100 - t.entryPrice) * (t.units : ℚ)) } := by
  intro n
  induction n with
  | zero =>
    intro past s t hpos hdir hsl htp
    simp [runLoop, List.replicate]
  | succ n ih =>
    intro past s t hpos hdir hsl htp
    rw [List.replicate_succ]
    simp only [runLoop]
    have hcs : checkStops demoCfg now ("SPY") demoBar s = s := by
      simp only [checkStops, hpos, alookup]
      norm_num [hdir, hsl, htp, demoBar]
    have hex : executeSignal demoCfg now ("SPY") ⟨"BUY", some 98, none⟩ demoBar s = s := by
      simp [executeSignal, hpos, alookup]
    have hup : updateEquity demoBar.close s =
        { s with equityHistory := s.equityHistory ++
            [s.capital + (100 - t.entryPrice) * (t.units : ℚ)] } := by
      simp [updateEquity, hpos, hdir, demoBar]
    have hbar : barStep demoCfg now ("SPY") demoStrat (lastBars 60 past) demoBar s =
        { s with equityHistory := s.equityHistory ++
            [s.capital + (100 - t.entryPrice) * (t.units : ℚ)] } := by
      simp only [barStep, demoStrat, hcs]
      norm_num [hex, hup]
    rw [hbar]
    rw [ih (past ++ [demoBar]) _ t (by simp [hpos]) hdir hsl htp]
    simp [List.append_assoc, List.replicate_succ]

/-- The complete demo run: one trade opened on the first iteration, held to
the end of the data, and force-closed at 100 with reason end_of_backtest. -/
lemma demo_run (now : ℤ) :
    runBacktest demoCfg now ("SPY") demoData demoStrat =
      Except.ok ⟨100000, demoEquity, [demoClosedTrade now], []⟩ := by
  have htake : demoData.take 60 = List.replicate 60 demoBar := by
    simp [demoData, List.take_replicate]
  have hdrop : demoData.drop 60 = List.replicate 40 demoBar := by
    simp [demoData, List.drop_replicate]
  have hlast : demoData.getLastD barDefault = demoBar :=
    getLastD_replicate 100 demoBar barDefault (by norm_num)
  have hlen : ¬ demoData.length < 100 := by simp [demoData]
  simp only [runBacktest, hlast, htake, hdrop]
  rw [if_neg hlen]
  rw [show List.replicate 40 demoBar = demoBar :: List.replicate 39 demoBar from rfl]
  rw [runLoop_cons]
  rw [demo_first_step now]
  rw [demo_steady now 39 _ _ (demoOpenTrade now) rfl rfl rfl rfl]
  norm_num [alookup, closePosition, demoOpenTrade, demoClosedTrade,
    demoEquity, demoCfg, demoBar, aerase]

/-- Claim C5 counterexample: two runs of run_backtest with identical
constructor parameters, symbol, bar data and pure strategy, differing only
in the ambient wall clock (datetime.now() readings 0 and 1), produce trade
lists that are NOT identical in every field: entry_time and exit_time
differ.  The claim as stated (every field of every BacktestTrade equal) is
therefore false. -/
theorem c5_backtest_counterexample :
    Except.map (fun s => s.trades) (runBacktest demoCfg 0 ("SPY") demoData demoStrat) ≠
      Except.map (fun s => s.trades) (runBacktest demoCfg 1 ("SPY") demoData demoStrat) := by
  rw [demo_run 0, demo_run 1]
  simp only [Except.map]
  intro hcontra
  simp [demoClosedTrade, Trade.mk.injEq] at hcontra

/-! ### At most one open position per symbol -/

/-- Removing a key never lengthens the association list. -/
lemma aerase_length {α : Type} (k : String) (l : List (String × α)) :
    (aerase k l).length ≤ l.length := by
  induction l with
  | nil => exact le_refl 0
  | cons p rest ih =>
    simp only [aerase]
    split
    · exact le_trans ih (Nat.le_succ _)
    · simpa using ih

/-- Removal only keeps entries of the original list. -/
lemma aerase_subset {α : Type} (k : String) (l : List (String × α)) :
    ∀ p ∈ aerase k l, p ∈ l := by
  induction l with
  | nil => intro p hp; simpa [aerase] using hp
  | cons q rest ih =>
    intro p hp
    simp only [aerase] at hp
    by_cases hq : q.1 = k
    · rw [if_pos hq] at hp
      exact List.mem_cons_of_mem q (ih p hp)
    · rw [if_neg hq] at hp
      rcases List.mem_cons.mp hp with rfl | hmem
      · exact List.mem_cons_self p rest
      · exact List.mem_cons_of_mem q (ih p hmem)

/-- Closing a position preserves the no-pyramiding invariant. -/
lemma closePosition_posOk (cfg : EngineConfig) (now : ℤ) (sym : String)
    (price : ℚ) (reason : String) (s : EngineState)
    (h : positionsOk sym s) :
    positionsOk sym (closePosition cfg now sym price reason s) := by
  cases hl : alookup sym s.openPositions with
  | none => simpa only [closePosition, hl] using h
  | some t =>
    simp only [closePosition, hl]
    exact ⟨le_trans (aerase_length sym s.openPositions) h.1,
      fun p hp => h.2 p (aerase_subset sym s.openPositions p hp)⟩

/-- Checking stops preserves the no-pyramiding invariant. -/
lemma checkStops_posOk (cfg : EngineConfig) (now : ℤ) (sym : String)
    (bar : Bar) (s : EngineState) (h : positionsOk sym s) :
    positionsOk sym (checkStops cfg now sym bar s) := by
  cases hl : alookup sym s.openPositions with
  | none => simpa only [checkStops, hl] using h
  | some t =>
    simp only [checkStops, hl]
    cases t.takeProfit with
    | none =>
      dsimp only
      split_ifs <;>
        first
          | exact h
          | exact closePosition_posOk cfg now sym _ _ s h
    | some tp =>
      dsimp only
      split_ifs <;>
        first
          | exact h
          | exact closePosition_posOk cfg now sym _ _ s h
          | exact closePosition_posOk cfg now sym _ _ _
              (closePosition_posOk cfg now sym _ _ s h)

/-- Executing a signal preserves the no-pyramiding invariant: when the
symbol has no open position the invariant forces the position book to be
empty, so the open inserts into an empty book. -/
lemma executeSignal_posOk (cfg : EngineConfig) (now : ℤ) (sym : String)
    (sig : StrategySignal) (bar : Bar) (s : EngineState)
    (h : positionsOk sym s) :
    positionsOk sym (executeSignal cfg now sym sig bar s) := by
  by_cases hl : (alookup sym s.openPositions).isSome = true
  · simpa only [executeSignal, hl, if_pos] using h
  · have hemp : s.openPositions = [] := by
      cases hp : s.openPositions with
      | nil => rfl
      | cons q rest =>
        have hq : q.1 = sym := h.2 q (by rw [hp]; exact List.mem_cons_self q rest)
        rw [hp] at hl
        simp [alookup, hq] at hl
    simp only [executeSignal, hl, if_neg, Bool.not_eq_true]
    split_ifs <;>
      first
        | exact h
        | · rw [hemp]
            exact ⟨by simp, by simp⟩

/-- Updating the equity curve does not touch positions. -/
lemma updateEquity_posOk (price : ℚ) (sym : String) (s : EngineState)
    (h : positionsOk sym s) : positionsOk sym (updateEquity price s) := h

/-- Claim C8: throughout a run_backtest call the simulator holds at most one
open position, all for the traded symbol: the invariant holds at reset, is
preserved by every loop iteration and by the final forced close; moreover a
BUY or SELL signal arriving while a position is open for the symbol leaves
the whole simulator state (capital, open position, trade list, equity)
unchanged, because _execute_signal returns immediately. -/
theorem c8_no_pyramiding (cfg : EngineConfig) (now : ℤ) (sym : String)
    (strat : List Bar → StrategySignal) :
    positionsOk sym (initEngineState cfg) ∧
    (∀ (w : List Bar) (bar : Bar) (s : EngineState), positionsOk sym s →
      positionsOk sym (barStep cfg now sym strat w bar s)) ∧
    (∀ (price : ℚ) (reason : String) (s : EngineState), positionsOk sym s →
      positionsOk sym (closePosition cfg now sym price reason s)) ∧
    (∀ (sig : StrategySignal) (bar : Bar) (s : EngineState),
      (alookup sym s.openPositions).isSome →
      (sig.action = "BUY" ∨ sig.action = "SELL") →
      executeSignal cfg now sym sig bar s = s) := by
  refine ⟨⟨by simp [initEngineState], by simp [initEngineState]⟩, ?_, ?_, ?_⟩
  · intro w bar s h
    simp only [barStep]
    apply updateEquity_posOk
    have h1 := checkStops_posOk cfg now sym bar s h
    split_ifs
    · exact executeSignal_posOk cfg now sym _ bar _ h1
    · exact h1
  · intro price reason s h
    exact closePosition_posOk cfg now sym price reason s h
  · intro sig bar s hs hact
    simp only [executeSignal, hs, if_pos]

/-- Witness for C8: a BUY signal while a 900-unit long position is already
open for the symbol leaves the state untouched. -/
theorem c8_no_pyramiding_witness :
    executeSignal demoCfg 0 ("SPY") ⟨"BUY", some 98, none⟩ demoBar
        ⟨1000, [1000], [], [("SPY", demoOpenTrade 0)]⟩ =
      ⟨1000, [1000], [], [("SPY", demoOpenTrade 0)]⟩ :=
  (c8_no_pyramiding demoCfg 0 ("SPY") demoStrat).2.2.2 ⟨"BUY", some 98, none⟩
    demoBar ⟨1000, [1000], [], [("SPY", demoOpenTrade 0)]⟩
    (by simp [alookup]) (Or.inl rfl)
